import Mathlib

/-!
# SafetyWallet verification scripts

A shallow embedding of `scripts/verify.go` (the verification pipeline
orchestrator) and `scripts/check-anti-patterns.go` (the anti-pattern scanner),
together with the parts of the Go standard library they rely on
(`strings`, `path/filepath`, `bufio.Scanner`, `regexp`).

Conventions.
* Text is a `String`; all string functions work on the underlying character list.
* A Go `error` returned by an external command is a `Bool` (`true`: non-nil error).
* Terminal output is not modelled, except for the records that carry the data the
  specification talks about: step headers, executed commands and scanner reports.
  Elapsed wall-clock times are not modelled.
-/

set_option autoImplicit false

/-! ## Go standard library: `strings` -/

namespace strings

/-- Go `strings.HasPrefix(s, pre)`. -/
def HasPrefix (s pre : String) : Bool := pre.data.isPrefixOf s.data

/-- Go `strings.HasSuffix(s, suf)`. -/
def HasSuffix (s suf : String) : Bool := suf.data.isSuffixOf s.data

/-- Occurrence of `sub` as a contiguous block of the character list `s`. -/
def containsChars (sub : List Char) : List Char → Bool
  | [] => sub.isPrefixOf []
  | c :: cs => sub.isPrefixOf (c :: cs) || containsChars sub cs

/-- Go `strings.Contains(s, sub)`. -/
def Contains (s sub : String) : Bool := containsChars sub.data s.data

end strings

/-! ## Go standard library: `path/filepath` (Unix separator) -/

namespace filepath

/-- Strip trailing slashes: the first loop of `filepath.Base`. -/
def stripTrailingSlashes (p : List Char) : List Char :=
  (p.reverse.dropWhile (· == '/')).reverse

/-- The part after the last slash: the second loop of `filepath.Base`. -/
def lastElement (p : List Char) : List Char :=
  (p.reverse.takeWhile (· != '/')).reverse

/-- Go `filepath.Base(path)`: the last element of the path; `"."` for the empty
path and `"/"` for a path made of slashes only. -/
def Base (path : String) : String :=
  if path.data = [] then "."
  else
    let e := lastElement (stripTrailingSlashes path.data)
    if e = [] then "/" else ⟨e⟩

/-- Go `filepath.Join(dir, name)` for a directory path produced by the walk and a
directory entry name (a single non-empty path element other than `.` and `..`):
`Clean` only has to remove the leading `./`. -/
def Join (dir name : String) : String :=
  if dir = "." then name else dir ++ "/" ++ name

/-- The view of a file tree that `os.Lstat` and `ReadDir` give to `filepath.Walk`.
A directory listing is in the order `readDirNames` returns it (sorted by name). -/
inductive Node where
  /-- An entry that is not a directory; `regular = false` stands for a symbolic link
  (not followed by `Lstat`), device, socket or pipe. -/
  | file (name : String) (regular : Bool)
  /-- A directory; `listing = none` when reading the directory fails. -/
  | dir (name : String) (listing : Option (List Node))
  /-- An entry on which `Lstat` fails. -/
  | broken (name : String)

/-- The name of an entry. -/
def Node.name : Node → String
  | .file n _ => n
  | .dir n _ => n
  | .broken n => n

/-- Go `os.FileInfo`, as far as the callback looks at it. -/
structure FileInfo where
  Name : String
  IsDir : Bool
  IsRegular : Bool
  deriving DecidableEq, Repr

/-- The three ways `filepath.Walk` calls its callback: `fn(path, info, nil)`,
`fn(path, info, err)` after a failed directory read, `fn(path, nil, err)` after a
failed `Lstat`. -/
inductive Visit where
  | ok (info : FileInfo)
  | readErr (info : FileInfo)
  | statErr
  deriving DecidableEq, Repr

/-- The errors a walk callback can return. -/
inductive WalkErr where
  | SkipDir
  | SkipAll
  | other
  deriving DecidableEq, Repr

/-- A walk callback acting on a state `σ` (the variables its closure captures). -/
abbrev WalkFunc (σ : Type) := String → Visit → σ → Option WalkErr × σ

mutual
/-- Go `filepath.walk`: visit `path`, then, for a readable directory the callback
accepted, its entries. On the root it is also used for a failed `Lstat`. -/
def walk {σ : Type} (fn : WalkFunc σ) (path : String) : Node → σ → Option WalkErr × σ
  | .file name regular, s => fn path (.ok ⟨name, false, regular⟩) s
  | .broken _, s => fn path .statErr s
  | .dir name none, s => fn path (.readErr ⟨name, true, false⟩) s
  | .dir name (some entries), s =>
    match fn path (.ok ⟨name, true, false⟩) s with
    | (some e, s1) => (some e, s1)
    | (none, s1) => walkEntries fn path entries s1
/-- The loop of `filepath.walk` over the names of a directory. -/
def walkEntries {σ : Type} (fn : WalkFunc σ) (path : String) :
    List Node → σ → Option WalkErr × σ
  | [], s => (none, s)
  | .broken name :: rest, s =>
    match fn (Join path name) .statErr s with
    | (some e, s1) => if e ≠ .SkipDir then (some e, s1) else walkEntries fn path rest s1
    | (none, s1) => walkEntries fn path rest s1
  | .file name regular :: rest, s =>
    match walk fn (Join path name) (.file name regular) s with
    | (some e, s1) => (some e, s1)
    | (none, s1) => walkEntries fn path rest s1
  | .dir name listing :: rest, s =>
    match walk fn (Join path name) (.dir name listing) s with
    | (some e, s1) => if e ≠ .SkipDir then (some e, s1) else walkEntries fn path rest s1
    | (none, s1) => walkEntries fn path rest s1
end

/-- Go `filepath.Walk(root, fn)`: `SkipDir` and `SkipAll` coming out of the root are
not errors. -/
def Walk {σ : Type} (rootPath : String) (root : Node) (fn : WalkFunc σ) (s : σ) :
    Option WalkErr × σ :=
  match walk fn rootPath root s with
  | (some .SkipDir, s1) => (none, s1)
  | (some .SkipAll, s1) => (none, s1)
  | r => r

end filepath

/-! ## `scripts/verify.go` -/

namespace Verify

open filepath

inductive stepResult where
  | resultPass
  | resultFail
  | resultSkip
  deriving DecidableEq, Repr

structure step where
  name : String
  label : String
  result : stepResult
  deriving DecidableEq, Repr

/-- What a run does that an observer can see besides its return value. -/
inductive Event where
  /-- `printStepHeader(num, label)`. -/
  | header (num label : String)
  /-- An external command run to completion (`cmd.Run()`). -/
  | exec (argv : List String)
  deriving DecidableEq, Repr

/-- The environment of a pipeline run: the outcome of every external command
(`true`: `cmd.Run()` returns a non-nil error) and the file tree under `.`. -/
structure World where
  fails : List String → Bool
  root : Node

/-- Go `runCommand(name, args...)`: the returned error and the command executed. -/
def runCommand (w : World) (argv : List String) : Bool × List Event :=
  (w.fails argv, [.exec argv])

/-- Go `runStep(num, label, name, fn)`; `fn` is the action, run after the header. -/
def runStep (num label name : String) (fn : Unit → Bool × List Event) : step × List Event :=
  let r := fn ()
  if r.1 then
    (⟨name, label, .resultFail⟩, Event.header num label :: r.2)
  else
    (⟨name, label, .resultPass⟩, Event.header num label :: r.2)

/-- The directory names the walk does not descend into. -/
def isExcludedDir (dirName : String) : Bool :=
  dirName == "node_modules" || dirName == ".next" || dirName == "dist" ||
    dirName == "coverage" || dirName == ".git"

/-- The callback handed to `filepath.Walk` in `runAntiPatternStep`; the state is
the captured slice `tsFiles`. -/
def collectFn : WalkFunc (List String)
  | _, .readErr _, tsFiles => (none, tsFiles)
  | _, .statErr, tsFiles => (none, tsFiles)
  | path, .ok info, tsFiles =>
    if info.IsDir then
      if isExcludedDir info.Name then (some .SkipDir, tsFiles) else (none, tsFiles)
    else if strings.HasSuffix info.Name ".ts" || strings.HasSuffix info.Name ".tsx" then
      if strings.HasPrefix path "apps/" || strings.HasPrefix path "packages/" then
        (none, tsFiles ++ [path])
      else (none, tsFiles)
    else (none, tsFiles)

/-- The command line that runs the scanner on the given files. -/
def scannerArgv (tsFiles : List String) : List String :=
  ["go", "run", "scripts/check-anti-patterns.go"] ++ tsFiles

/-- Go `runAntiPatternStep()`. -/
def runAntiPatternStep (w : World) : step × List Event :=
  let hdr := Event.header "4/7" "Anti-pattern Scan"
  match Walk "." w.root collectFn [] with
  | (some _, _) => (⟨"anti-patterns", "Anti-pattern Scan", .resultFail⟩, [hdr])
  | (none, tsFiles) =>
    if tsFiles.length = 0 then
      (⟨"anti-patterns", "Anti-pattern Scan", .resultSkip⟩, [hdr])
    else
      let tsFiles := if tsFiles.length > 500 then tsFiles.take 500 else tsFiles
      let args := scannerArgv tsFiles
      if w.fails args then
        (⟨"anti-patterns", "Anti-pattern Scan", .resultFail⟩, [hdr, .exec args])
      else
        (⟨"anti-patterns", "Anti-pattern Scan", .resultPass⟩, [hdr, .exec args])

/-- Go `runAllSteps(skipBuild)`: the results slice and everything that happened. -/
def runAllSteps (w : World) (skipBuild : Bool) : List step × List Event :=
  let s1 := runStep "1/7" "TypeScript Type Check" "typecheck"
    (fun _ => runCommand w ["npx", "turbo", "run", "typecheck"])
  let s2 := runStep "2/7" "ESLint" "lint"
    (fun _ => runCommand w ["npx", "turbo", "run", "lint"])
  let s3 := runStep "3/7" "Unit Tests (Vitest)" "test"
    (fun _ => runCommand w ["npx", "vitest", "run"])
  let s4 := runAntiPatternStep w
  let s5 := runStep "5/7" "Naming Convention Check" "lint:naming"
    (fun _ => runCommand w ["node", "scripts/lint-naming.js"])
  let s6 := runStep "6/7" "Wrangler Binding Sync" "wrangler-sync"
    (fun _ => runCommand w ["node", "scripts/check-wrangler-sync.js"])
  let s7 : step × List Event :=
    if skipBuild then
      (⟨"7/7", "Build (SKIPPED)", .resultSkip⟩, [Event.header "7/7" "Build (SKIPPED)"])
    else
      runStep "7/7" "Production Build" "build"
        (fun _ => runCommand w ["npx", "turbo", "run", "build"])
  ([s1.1, s2.1, s3.1, s4.1, s5.1, s6.1, s7.1],
    s1.2 ++ s2.2 ++ s3.2 ++ s4.2 ++ s5.2 ++ s6.2 ++ s7.2)

/-- The counting loop of `main`: the number of steps whose result is `resultFail`. -/
def countFailed : List step → Nat
  | [] => 0
  | r :: rest => (if r.result = .resultFail then 1 else 0) + countFailed rest

/-- The exit code `main` ends with for a given results slice. -/
def exitCode (results : List step) : Nat :=
  if countFailed results > 0 then 1 else 0

/-- The flag parsing loop of `main`. -/
def parseSkipBuild : List String → Bool
  | [] => false
  | arg :: rest => if arg = "--skip-build" then true else parseSkipBuild rest

/-- Go `main()` for the arguments `os.Args[1:]`: the exit code, the results and
what happened. -/
def main (w : World) (args : List String) : Nat × List step × List Event :=
  let skipBuild := parseSkipBuild args
  let r := runAllSteps w skipBuild
  (exitCode r.1, r.1, r.2)

/-- The counters of `printSummary`: passed, failed, skipped. -/
def summaryCounts (results : List step) : Nat × Nat × Nat :=
  results.foldl (fun c r =>
    match r.result with
    | .resultPass => (c.1 + 1, c.2.1, c.2.2)
    | .resultFail => (c.1, c.2.1 + 1, c.2.2)
    | .resultSkip => (c.1, c.2.1, c.2.2 + 1)) (0, 0, 0)

/-- The commands executed, in order. -/
def execs : List Event → List (List String)
  | [] => []
  | .exec argv :: rest => argv :: execs rest
  | .header _ _ :: rest => execs rest

/-- The step headers printed, in order. -/
def headers : List Event → List (String × String)
  | [] => []
  | .exec _ :: rest => headers rest
  | .header num label :: rest => (num, label) :: headers rest

/-- The result `runStep` records for an action that returned the given error. -/
def outcome (failed : Bool) : stepResult :=
  if failed then .resultFail else .resultPass

/-- An entry of the tree that is not a directory and that a walk can reach: its
path, its name, whether it is a regular file, and the names of the directories
above it, the root first. -/
structure Entry where
  path : String
  name : String
  regular : Bool
  ancestors : List String
  deriving DecidableEq, Repr

mutual
/-- The non-directory entries of a tree on which `Lstat` succeeds and whose
directories can all be read, in the order of the directory listings. -/
def entriesOf (path : String) (ancestors : List String) : Node → List Entry
  | .file name regular => [⟨path, name, regular, ancestors⟩]
  | .broken _ => []
  | .dir _ none => []
  | .dir name (some listing) => entriesIn path (ancestors ++ [name]) listing
/-- The entries below the nodes of a directory listing. -/
def entriesIn (path : String) (ancestors : List String) : List Node → List Entry
  | [] => []
  | n :: rest => entriesOf (Join path n.name) ancestors n ++ entriesIn path ancestors rest
end

/-- The inclusion and exclusion rules of the scan, as the specification words
them: a name ending in `.ts` or `.tsx`, a path beginning with `apps/` or
`packages/`, and no directory above it named `node_modules`, `.next`, `dist`,
`coverage` or `.git`. -/
def eligible (e : Entry) : Bool :=
  (strings.HasSuffix e.name ".ts" || strings.HasSuffix e.name ".tsx") &&
    (strings.HasPrefix e.path "apps/" || strings.HasPrefix e.path "packages/") &&
    e.ancestors.all (fun d => !isExcludedDir d)

/-- The candidate files of a tree: what the walk of `runAntiPatternStep` leaves
in `tsFiles`. -/
def collected (root : Node) : List String :=
  (Walk "." root collectFn []).2

end Verify

/-! ## Go standard library: `bufio.Scanner` with the default `ScanLines` split -/

namespace bufio

/-- Go `bufio.MaxScanTokenSize`: the size the scanner buffer can grow to. -/
def MaxScanTokenSize : Nat := 64 * 1024

/-- The number of bytes of the UTF-8 encoding of a text. -/
def byteLen (cs : List Char) : Nat := (cs.map Char.utf8Size).sum

/-- The physical lines of a text: the segments between newline characters; what
follows the last newline is a line only when it is not empty. -/
def splitLines : List Char → List (List Char)
  | [] => []
  | c :: cs =>
    if c = '\n' then [] :: splitLines cs
    else
      match splitLines cs with
      | [] => [[c]]
      | l :: ls => (c :: l) :: ls

/-- Go `dropCR`: a single trailing carriage return is not part of the token. -/
def dropCR (l : List Char) : List Char :=
  if l.getLast? = some '\r' then l.dropLast else l

/-- The tokens `for scanner.Scan()` delivers with a new default scanner over a
byte slice: the lines in order, each without its line terminator. A line that
does not fit the buffer (`MaxScanTokenSize` bytes, the newline included when
there is one) makes `Scan` return false with `ErrTooLong`, ending the loop. -/
def scanTokens (content : List Char) : List (List Char) :=
  ((splitLines content).takeWhile (fun l => byteLen l < MaxScanTokenSize)).map dropCR

end bufio

/-! ## Go standard library: `regexp`, for the constructs the patterns use -/

namespace regexp

/-- Regular expressions over characters with the word-boundary assertion. -/
inductive Regex where
  | empty
  | char (c : Char)
  | cls (p : Char → Bool)
  | seq (r s : Regex)
  | alt (r s : Regex)
  | star (r : Regex)
  | wordBoundary

/-- A position in the text: the character before it (none at the start) and the
text from it on. -/
abbrev Pos := Option Char × List Char

/-- The class `\s` of Go regular expressions: `[\t\n\f\r ]`. -/
def isSpace (c : Char) : Bool :=
  c == '\t' || c == '\n' || c == '\x0c' || c == '\r' || c == ' '

/-- The word characters of `\b`: `[0-9A-Za-z_]`. -/
def isWordChar (c : Char) : Bool := c.isAlphanum || c == '_'

/-- Whether the character at one side of a position is a word character; the
start and the end of the text are not. -/
def isWordAt : Option Char → Bool
  | none => false
  | some c => isWordChar c

/-- A literal string. -/
def lit : List Char → Regex
  | [] => .empty
  | c :: cs => .seq (.char c) (lit cs)

/-- One or more: `r+`. -/
def plus (r : Regex) : Regex := .seq r (.star r)

/-- Iteration of a matching step, each round consuming at least one character. -/
def starEnds (step : Pos → List Pos) : Nat → Pos → List Pos
  | 0, q => [q]
  | n + 1, q =>
    q :: ((step q).filter (fun q1 => q1.2.length < q.2.length)).flatMap (starEnds step n)

/-- All positions at which a match of `r` starting at the given position ends. -/
def ends : Regex → Pos → List Pos
  | .empty, q => [q]
  | .char c, (_, d :: s) => if d = c then [(some d, s)] else []
  | .char _, (_, []) => []
  | .cls p, (_, d :: s) => if p d then [(some d, s)] else []
  | .cls _, (_, []) => []
  | .seq r s, q => (ends r q).flatMap (ends s)
  | .alt r s, q => ends r q ++ ends s q
  | .star r, q => starEnds (ends r) q.2.length q
  | .wordBoundary, q => if isWordAt q.1 != isWordAt q.2.head? then [q] else []

/-- Whether a match of `r` starts at the given position or at a later one. -/
def searchFrom (r : Regex) : Option Char → List Char → Bool
  | p, [] => !(ends r (p, [])).isEmpty
  | p, c :: cs => !(ends r (p, c :: cs)).isEmpty || searchFrom r (some c) cs

/-- Go `(*Regexp).Match(b)`: whether the text contains any match of `r`. -/
def Match (r : Regex) (b : List Char) : Bool := searchFrom r none b

end regexp

/-! ## `scripts/check-anti-patterns.go` -/

namespace CheckAntiPatterns

open regexp

structure antiPattern where
  name : String
  pattern : Regex

/-- The pattern `\bas\s+any\b`. -/
def asAnyRe : Regex :=
  .seq .wordBoundary (.seq (lit "as".data) (.seq (plus (.cls isSpace))
    (.seq (lit "any".data) .wordBoundary)))

/-- The pattern `@ts-ignore|@ts-expect-error`. -/
def tsIgnoreRe : Regex := .alt (lit "@ts-ignore".data) (lit "@ts-expect-error".data)

/-- The pattern `\bconsole\.log\b`. -/
def consoleLogRe : Regex :=
  .seq .wordBoundary (.seq (lit "console.log".data) .wordBoundary)

/-- The pattern `\bwindow\.(alert|confirm)\b`. -/
def nativeDialogRe : Regex :=
  .seq .wordBoundary (.seq (lit "window.".data)
    (.seq (.alt (lit "alert".data) (lit "confirm".data)) .wordBoundary))

/-- The pattern `(?s)catch\s*\([^)]*\)\s*\{\s*\}`; the flag `s` only changes the
meaning of `.`, which the pattern does not use. -/
def emptyCatchRe : Regex :=
  .seq (lit "catch".data) (.seq (.star (.cls isSpace)) (.seq (.char '(')
    (.seq (.star (.cls (fun c => c != ')'))) (.seq (.char ')')
      (.seq (.star (.cls isSpace)) (.seq (.char '\x7b')
        (.seq (.star (.cls isSpace)) (.char '\x7d'))))))))

/-- The slice `patterns` of `main`. -/
def patterns : List antiPattern :=
  [⟨"'as any'", asAnyRe⟩,
   ⟨"'@ts-ignore' or '@ts-expect-error'", tsIgnoreRe⟩,
   ⟨"'console.log'", consoleLogRe⟩,
   ⟨"Native dialog (window.alert/confirm)", nativeDialogRe⟩,
   ⟨"Empty catch block", emptyCatchRe⟩]

/-- What the scanner prints. -/
inductive Report where
  /-- The usage message on standard error. -/
  | usage
  /-- A violation line `<lineNumber>:<lineText>`. -/
  | line (lineNum : Nat) (text : String)
  /-- A line `  BLOCKED: <patternName> in <file>`. -/
  | blocked (name file : String)
  /-- The closing lines `COMMIT BLOCKED: <n> anti-pattern violation(s) found.` -/
  | commitBlocked (total : Nat)
  deriving DecidableEq, Repr

/-- Go `shouldSkip(file)`. -/
def shouldSkip (file : String) : Bool :=
  let base := filepath.Base file
  if strings.Contains base ".test." || strings.Contains base ".spec." ||
      strings.Contains base "__tests__" then true
  else if strings.Contains file "/scripts/" || strings.HasPrefix file "scripts/" then true
  else false

/-- The inner loop of `checkFile` for one line-based pattern: `lineNum` is the
counter before the remaining tokens are scanned; the result is the number of
violations counted and the lines printed. -/
def scanPattern (p : antiPattern) (file : String) : Nat → List (List Char) → Nat × List Report
  | _, [] => (0, [])
  | lineNum, l :: ls =>
    let lineNum := lineNum + 1
    let r := scanPattern p file lineNum ls
    if Match p.pattern l then
      (r.1 + 1, Report.line lineNum ⟨l⟩ :: Report.blocked p.name file :: r.2)
    else r

/-- The outer loop of `checkFile` over the line-based patterns. -/
def scanPatterns (file : String) (content : List Char) : List antiPattern → Nat × List Report
  | [] => (0, [])
  | p :: ps =>
    let a := scanPattern p file 0 (bufio.scanTokens content)
    let b := scanPatterns file content ps
    (a.1 + b.1, a.2 ++ b.2)

/-- Go `checkFile(file, patterns)`, with `readFile` for `os.ReadFile` (none: the
file cannot be read). The result is none when the Go code panics, which it does
on a readable file when fewer than five patterns are passed. -/
def checkFile (readFile : String → Option String) (file : String)
    (patterns : List antiPattern) : Option (Nat × List Report) :=
  match readFile file with
  | none => some (0, [])
  | some content =>
    if patterns.length < 4 then none
    else
      let a := scanPatterns file content.data (patterns.take 4)
      match patterns.get? 4 with
      | none => none
      | some p =>
        if Match p.pattern content.data then
          some (a.1 + 1, a.2 ++ [Report.blocked p.name file])
        else some a

/-- The loop of `main` over the files: the total and the lines printed. -/
def scanFiles (readFile : String → Option String) : List String → Option (Nat × List Report)
  | [] => some (0, [])
  | file :: rest =>
    if shouldSkip file then scanFiles readFile rest
    else
      match checkFile readFile file patterns with
      | none => none
      | some a =>
        match scanFiles readFile rest with
        | none => none
        | some b => some (a.1 + b.1, a.2 ++ b.2)

/-- Go `main()` for the arguments `os.Args[1:]`: the exit code and the lines
printed; none when the program panics. -/
def main (readFile : String → Option String) (files : List String) :
    Option (Nat × List Report) :=
  if files.length + 1 < 2 then some (1, [Report.usage])
  else
    match scanFiles readFile files with
    | none => none
    | some (totalErrors, out) =>
      if totalErrors > 0 then some (1, out ++ [Report.commitBlocked totalErrors])
      else some (0, out)

end CheckAntiPatterns

/-! ## Concrete inputs -/

namespace Verify

open filepath

/-- A world in which only the lint command fails, over a tree with one source file. -/
def lintFailsWorld : World where
  fails := fun argv => argv == ["npx", "turbo", "run", "lint"]
  root := .dir "." (some [.dir "apps" (some [.file "a.ts" true])])

end Verify

namespace Verify

/-- The results of the first six steps when they all pass. -/
def sixPassed : List step :=
  [⟨"typecheck", "TypeScript Type Check", .resultPass⟩,
   ⟨"lint", "ESLint", .resultPass⟩,
   ⟨"test", "Unit Tests (Vitest)", .resultPass⟩,
   ⟨"anti-patterns", "Anti-pattern Scan", .resultPass⟩,
   ⟨"lint:naming", "Naming Convention Check", .resultPass⟩,
   ⟨"wrangler-sync", "Wrangler Binding Sync", .resultPass⟩]

end Verify

namespace Verify

/-- The paths of the eligible entries among the given ones, in their order. -/
def eligiblePaths (es : List Entry) : List String :=
  (es.filter eligible).map Entry.path

end Verify

namespace Verify

open filepath

/-- A tree whose only candidate is a symbolic link. -/
def symlinkTree : Node :=
  .dir "." (some [.dir "apps" (some [.file "link.ts" false])])

/-- A tree with a source file, a test file, a declaration in an excluded directory,
a file outside the two source areas, an unreadable directory and a broken entry. -/
def sampleTree : Node :=
  .dir "." (some [
    .dir "apps" (some [
      .dir "locked" none,
      .dir "web" (some [
        .dir "dist" (some [.file "out.ts" true]),
        .file "page.tsx" true,
        .file "readme.md" true]),
      .broken "zombie.ts"]),
    .dir "packages" (some [.file "index.ts" true]),
    .dir "scripts" (some [.file "verify.ts" true])])

/-- A world over a tree without any source file. -/
def emptyWorld : World where
  fails := fun _ => false
  root := .dir "." (some [])

/-- A world whose tree has an unreadable directory before a source file, and in
which every command succeeds. -/
def lockedWorld : World where
  fails := fun _ => false
  root := .dir "." (some [.dir "apps" (some [.dir "locked" none, .file "z.ts" true])])

/-- The 676 two-letter file names `aa.ts` to `zz.ts`, in sorted order. -/
def manyFiles : List Node :=
  "abcdefghijklmnopqrstuvwxyz".data.flatMap (fun a =>
    "abcdefghijklmnopqrstuvwxyz".data.map (fun b => Node.file ⟨[a, b, '.', 't', 's']⟩ true))

/-- A world whose tree has 676 candidates, and in which the scanner fails. -/
def bigWorld : World where
  fails := fun argv => argv.take 3 == ["go", "run", "scripts/check-anti-patterns.go"]
  root := .dir "." (some [.dir "apps" (some manyFiles)])

end Verify

namespace regexp

/-- The character before the position reached after reading `l` from a position
whose preceding character is `p`. -/
def prevAfter (p : Option Char) : List Char → Option Char
  | [] => p
  | c :: cs => prevAfter (some c) cs

end regexp

namespace CheckAntiPatterns

/-- The number of violations the scanner counts for one file of its argument list. -/
def fileViolations (readFile : String → Option String) (file : String) : Nat :=
  if shouldSkip file then 0
  else
    match checkFile readFile file patterns with
    | some a => a.1
    | none => 0

/-- The total violation count, summed over all the given files. -/
def totalViolations (readFile : String → Option String) (files : List String) : Nat :=
  (files.map (fileViolations readFile)).sum

/-- The text of an empty catch block: `catch`, a parenthesised binding and a pair
of braces, with the given whitespace between the parts. -/
def emptyCatchText (ws1 param ws2 ws3 : List Char) : List Char :=
  "catch".data ++ ws1 ++ ['('] ++ param ++ [')'] ++ ws2 ++ ['\x7b'] ++ ws3 ++ ['\x7d']

/-- A file system in which every file has the same content. -/
def constFiles (content : String) : String → Option String := fun _ => some content

/-- A ten-line file with `const x = value as any;` on line 10. -/
def tenLines : String :=
  "import a from 'a';\n\nfunction f(value: unknown) \x7b\n  // one\n  // two\n" ++
  "  // three\n  // four\n  // five\n  // six\n  const x = value as any;\n  return x;\n\x7d\n"

/-- The text whose first line is `n` times the letter `x` and whose second line is
a `console.log` call. -/
def longLineText (n : Nat) : List Char :=
  List.replicate n 'x' ++ '\n' :: "console.log(1)\n".data


end CheckAntiPatterns

namespace Verify

open filepath

/-- A world whose tree holds documentation only, no source file, and in which
every command succeeds. -/
def docsOnlyWorld : World where
  fails := fun _ => false
  root := .dir "." (some [.dir "docs" (some [.file "readme.md" true]), .file "package.json" true])

end Verify

/-! ## The pipeline orchestrator -/

namespace Verify

open filepath

/-- The anti-pattern step prints one header and runs at most the scanner. -/
theorem runAntiPatternStep_events (w : World) :
    headers (runAntiPatternStep w).2 = [("4/7", "Anti-pattern Scan")] ∧
    ∀ argv ∈ execs (runAntiPatternStep w).2,
      ∃ files, argv = scannerArgv files := by
  unfold runAntiPatternStep
  rcases Walk "." w.root collectFn [] with ⟨_ | e, ts⟩
  · by_cases h0 : ts.length = 0
    · simp [h0, headers, execs]
    · by_cases hf : w.fails (scannerArgv (if ts.length > 500 then List.take 500 ts else ts))
      · simp only [h0, hf, if_true, if_false, headers, execs]
        refine ⟨trivial, ?_⟩
        intro argv h
        exact ⟨_, List.mem_singleton.mp h⟩
      · simp only [h0, hf, if_false, headers, execs]
        refine ⟨trivial, ?_⟩
        intro argv h
        exact ⟨_, List.mem_singleton.mp h⟩
  · simp [headers, execs]

/-- The name and label of the anti-pattern step do not depend on its result. -/
theorem runAntiPatternStep_name (w : World) :
    (runAntiPatternStep w).1.name = "anti-patterns" ∧
    (runAntiPatternStep w).1.label = "Anti-pattern Scan" := by
  unfold runAntiPatternStep
  rcases Walk "." w.root collectFn [] with ⟨_ | e, ts⟩
  · by_cases h0 : ts.length = 0
    · simp [h0]
    · by_cases hf : w.fails (scannerArgv (if ts.length > 500 then List.take 500 ts else ts))
      · simp [h0, hf]
      · simp [h0, hf]
  · simp

theorem execs_append (a b : List Event) : execs (a ++ b) = execs a ++ execs b := by
  induction a with
  | nil => rfl
  | cons e rest ih => cases e <;> simp [execs, ih]

theorem headers_append (a b : List Event) : headers (a ++ b) = headers a ++ headers b := by
  induction a with
  | nil => rfl
  | cons e rest ih => cases e <;> simp [headers, ih]

theorem runStep_fst (num label name : String) (fn : Unit → Bool × List Event) :
    (runStep num label name fn).1 = ⟨name, label, outcome (fn ()).1⟩ := by
  unfold runStep outcome
  by_cases h : (fn ()).1 <;> simp [h]

theorem runStep_snd (num label name : String) (fn : Unit → Bool × List Event) :
    (runStep num label name fn).2 = Event.header num label :: (fn ()).2 := by
  unfold runStep
  by_cases h : (fn ()).1 <;> simp [h]

theorem countFailed_eq_zero_iff (results : List step) :
    countFailed results = 0 ↔ ∀ r ∈ results, r.result ≠ .resultFail := by
  induction results with
  | nil => simp [countFailed]
  | cons r rest ih =>
    by_cases h : r.result = .resultFail
    · simp [countFailed, h]
    · simp [countFailed, h, ih]

theorem parseSkipBuild_iff (args : List String) :
    parseSkipBuild args = true ↔ "--skip-build" ∈ args := by
  induction args with
  | nil => simp [parseSkipBuild]
  | cons a rest ih =>
    by_cases h : a = "--skip-build"
    · simp [parseSkipBuild, h]
    · have h2 : ¬ "--skip-build" = a := fun e => h e.symm
      simp [parseSkipBuild, h, h2, ih]

end Verify

namespace Verify

/-- The commands a run executes: the same ones in the same order whatever their
outcomes; only the flag decides whether the build command is among them. -/
theorem runAllSteps_execs (w : World) (skipBuild : Bool) :
    execs (runAllSteps w skipBuild).2 =
      [["npx", "turbo", "run", "typecheck"], ["npx", "turbo", "run", "lint"],
        ["npx", "vitest", "run"]] ++ execs (runAntiPatternStep w).2 ++
      [["node", "scripts/lint-naming.js"], ["node", "scripts/check-wrangler-sync.js"]] ++
      (if skipBuild then [] else [["npx", "turbo", "run", "build"]]) := by
  cases skipBuild <;>
    simp [runAllSteps, runStep_snd, runCommand, execs_append, execs]

/-- C1: for every value of the skip-build flag and every outcome of the step
actions, `runAllSteps` returns exactly seven step records in the fixed order type
check, lint, unit tests, anti-pattern scan, naming convention check, binding sync
check, build. Every step prints its header and every command is run whatever the
earlier steps returned, the result of a step being that of its own action; so a
failing step never prevents a later step from being run and recorded, and when
only the lint action fails exactly one step is Failed. -/
theorem runAllSteps_runs_every_step (w : World) (skipBuild : Bool) :
    (runAllSteps w skipBuild).1.length = 7 ∧
    (runAllSteps w skipBuild).1.map step.name =
      ["typecheck", "lint", "test", "anti-patterns", "lint:naming", "wrangler-sync",
        if skipBuild then "7/7" else "build"] ∧
    (runAllSteps w skipBuild).1.map step.label =
      ["TypeScript Type Check", "ESLint", "Unit Tests (Vitest)", "Anti-pattern Scan",
        "Naming Convention Check", "Wrangler Binding Sync",
        if skipBuild then "Build (SKIPPED)" else "Production Build"] ∧
    (runAllSteps w skipBuild).1.map step.result =
      [outcome (w.fails ["npx", "turbo", "run", "typecheck"]),
        outcome (w.fails ["npx", "turbo", "run", "lint"]),
        outcome (w.fails ["npx", "vitest", "run"]),
        (runAntiPatternStep w).1.result,
        outcome (w.fails ["node", "scripts/lint-naming.js"]),
        outcome (w.fails ["node", "scripts/check-wrangler-sync.js"]),
        if skipBuild then .resultSkip else outcome (w.fails ["npx", "turbo", "run", "build"])] ∧
    headers (runAllSteps w skipBuild).2 =
      [("1/7", "TypeScript Type Check"), ("2/7", "ESLint"), ("3/7", "Unit Tests (Vitest)"),
        ("4/7", "Anti-pattern Scan"), ("5/7", "Naming Convention Check"),
        ("6/7", "Wrangler Binding Sync"),
        ("7/7", if skipBuild then "Build (SKIPPED)" else "Production Build")] ∧
    execs (runAllSteps w skipBuild).2 =
      [["npx", "turbo", "run", "typecheck"], ["npx", "turbo", "run", "lint"],
        ["npx", "vitest", "run"]] ++ execs (runAntiPatternStep w).2 ++
      [["node", "scripts/lint-naming.js"], ["node", "scripts/check-wrangler-sync.js"]] ++
      (if skipBuild then [] else [["npx", "turbo", "run", "build"]]) ∧
    (w.fails ["npx", "turbo", "run", "lint"] = true →
      w.fails ["npx", "turbo", "run", "typecheck"] = false →
      w.fails ["npx", "vitest", "run"] = false →
      (runAntiPatternStep w).1.result ≠ .resultFail →
      w.fails ["node", "scripts/lint-naming.js"] = false →
      w.fails ["node", "scripts/check-wrangler-sync.js"] = false →
      (skipBuild = false → w.fails ["npx", "turbo", "run", "build"] = false) →
      countFailed (runAllSteps w skipBuild).1 = 1) := by
  have hn := runAntiPatternStep_name w
  have he := runAntiPatternStep_events w
  refine ⟨?_, ?_, ?_, ?_, ?_, ?_, ?_⟩
  · simp [runAllSteps]
  · cases skipBuild <;> simp [runAllSteps, runStep_fst, hn.1]
  · cases skipBuild <;> simp [runAllSteps, runStep_fst, hn.2]
  · cases skipBuild <;> simp [runAllSteps, runStep_fst, runCommand]
  · cases skipBuild <;>
      simp [runAllSteps, runStep_snd, runCommand, headers_append, headers, he.1]
  · exact runAllSteps_execs w skipBuild
  · intro h2 h1 h3 h4 h5 h6 h7
    cases skipBuild
    · have h7 := h7 rfl
      simp [runAllSteps, runStep_fst, runCommand, countFailed, outcome, h1, h2, h3, h4, h5,
        h6, h7]
    · simp [runAllSteps, runStep_fst, runCommand, countFailed, outcome, h1, h2, h3, h4, h5,
        h6]

/-- C1 at a concrete run: only the lint command fails, the build is not skipped;
the steps after the lint step are recorded and exactly one step is Failed. -/
theorem runAllSteps_runs_every_step_witness :
    (runAllSteps lintFailsWorld false).1.map step.result =
      [.resultPass, .resultFail, .resultPass, .resultPass, .resultPass, .resultPass,
        .resultPass] ∧
    countFailed (runAllSteps lintFailsWorld false).1 = 1 :=
  ⟨by decide!,
    (runAllSteps_runs_every_step lintFailsWorld false).2.2.2.2.2.2
      (by decide!) (by decide!) (by decide!) (by decide!) (by decide!) (by decide!)
      (fun _ => by decide!)⟩

end Verify

namespace Verify

/-- C2: for every list of step results, the exit code `main` computes from it is 1
if and only if at least one step is Failed and 0 otherwise, however many steps are
Skipped; and the exit code of a run is the one computed from the results of that
run. -/
theorem exitCode_one_iff_failed (results : List step) :
    (exitCode results = 1 ↔ ∃ r ∈ results, r.result = .resultFail) ∧
    (exitCode results = 0 ↔ ∀ r ∈ results, r.result ≠ .resultFail) ∧
    (∀ skipped : List step, (∀ r ∈ skipped, r.result = .resultSkip) →
      exitCode (results ++ skipped) = exitCode results ∧
      exitCode (skipped ++ results) = exitCode results) ∧
    (∀ (w : World) (args : List String),
      (main w args).1 = exitCode (runAllSteps w (parseSkipBuild args)).1 ∧
      (main w args).2.1 = (runAllSteps w (parseSkipBuild args)).1) := by
  have key : ∀ l : List step, exitCode l = if countFailed l = 0 then 0 else 1 := by
    intro l
    unfold exitCode
    by_cases h : countFailed l = 0
    · simp [h]
    · have : countFailed l > 0 := Nat.pos_of_ne_zero h
      simp [h, this]
  have h0 : exitCode results = 0 ↔ ∀ r ∈ results, r.result ≠ .resultFail := by
    rw [key, ← countFailed_eq_zero_iff]
    by_cases h : countFailed results = 0 <;> simp [h]
  have h1 : exitCode results = 1 ↔ ∃ r ∈ results, r.result = .resultFail := by
    have hz := countFailed_eq_zero_iff results
    rw [key]
    by_cases h : countFailed results = 0
    · have := hz.mp h
      simp only [h, if_true]
      constructor
      · intro hc
        exact absurd hc (by decide)
      · rintro ⟨r, hr, hf⟩
        exact absurd hf (this r hr)
    · simp only [h, if_false, true_iff]
      by_contra hne
      apply h
      apply hz.mpr
      intro r hr hf
      exact hne ⟨r, hr, hf⟩
  refine ⟨h1, h0, ?_, ?_⟩
  · intro skipped hs
    have hsk : countFailed skipped = 0 := by
      apply (countFailed_eq_zero_iff skipped).mpr
      intro r hr hf
      have := hs r hr
      rw [this] at hf
      exact absurd hf (by decide)
    have happ : ∀ a b : List step, countFailed (a ++ b) = countFailed a + countFailed b := by
      intro a b
      induction a with
      | nil => simp [countFailed]
      | cons x xs ih => simp [countFailed, ih, Nat.add_assoc]
    constructor
    · rw [key, key, happ, hsk, Nat.add_zero]
    · rw [key, key, happ, hsk, Nat.zero_add]
  · intro w args
    exact ⟨rfl, rfl⟩

/-- C2 at a concrete results list: six steps Passed and the build Skipped give
counters 6 passed, 0 failed, 1 skipped and exit code 0. -/
theorem exitCode_one_iff_failed_witness :
    summaryCounts (sixPassed ++ [⟨"7/7", "Build (SKIPPED)", .resultSkip⟩]) = (6, 0, 1) ∧
    exitCode (sixPassed ++ [⟨"7/7", "Build (SKIPPED)", .resultSkip⟩]) = exitCode sixPassed ∧
    exitCode sixPassed = 0 :=
  ⟨by decide!,
    ((exitCode_one_iff_failed sixPassed).2.2.1
      [⟨"7/7", "Build (SKIPPED)", .resultSkip⟩] (by decide!)).1,
    (exitCode_one_iff_failed sixPassed).2.1.mpr (by decide!)⟩

/-- C7: for every outcome of the step actions, a run with skip-build set records
the final step as Skipped without running the build command, and what it records
and does for steps 1 to 6 is what the run with skip-build unset records and does;
`main` sets the flag exactly when `--skip-build` is among its arguments. -/
theorem runAllSteps_skipBuild_frame (w : World) :
    (runAllSteps w true).1.getLast? = some ⟨"7/7", "Build (SKIPPED)", .resultSkip⟩ ∧
    ["npx", "turbo", "run", "build"] ∉ execs (runAllSteps w true).2 ∧
    ["npx", "turbo", "run", "build"] ∈ execs (runAllSteps w false).2 ∧
    (runAllSteps w true).1.take 6 = (runAllSteps w false).1.take 6 ∧
    (∃ common : List Event,
      (runAllSteps w true).2 = common ++ [Event.header "7/7" "Build (SKIPPED)"] ∧
      (runAllSteps w false).2 = common ++
        [Event.header "7/7" "Production Build", Event.exec ["npx", "turbo", "run", "build"]]) ∧
    (∀ args : List String, "--skip-build" ∈ args →
      (main w args).2.1 = (runAllSteps w true).1) ∧
    (∀ args : List String, "--skip-build" ∉ args →
      (main w args).2.1 = (runAllSteps w false).1) := by
  have he := (runAntiPatternStep_events w).2
  refine ⟨?_, ?_, ?_, ?_, ?_, ?_, ?_⟩
  · simp [runAllSteps]
  · rw [runAllSteps_execs]
    intro hmem
    simp only [List.mem_append, List.mem_cons, List.mem_singleton, List.not_mem_nil,
      List.append_nil, List.cons_append, List.nil_append, or_false, if_true] at hmem
    rcases hmem with h | h | h | h | h | h
    · exact absurd h (by decide)
    · exact absurd h (by decide)
    · exact absurd h (by decide)
    · obtain ⟨files, hf⟩ := he _ h
      simp [scannerArgv] at hf
    · exact absurd h (by decide)
    · exact absurd h (by decide)
  · rw [runAllSteps_execs]
    simp
  · simp [runAllSteps]
  · refine ⟨[Event.header "1/7" "TypeScript Type Check",
        Event.exec ["npx", "turbo", "run", "typecheck"],
        Event.header "2/7" "ESLint", Event.exec ["npx", "turbo", "run", "lint"],
        Event.header "3/7" "Unit Tests (Vitest)", Event.exec ["npx", "vitest", "run"]] ++
      (runAntiPatternStep w).2 ++
      [Event.header "5/7" "Naming Convention Check",
        Event.exec ["node", "scripts/lint-naming.js"],
        Event.header "6/7" "Wrangler Binding Sync",
        Event.exec ["node", "scripts/check-wrangler-sync.js"]], ?_, ?_⟩
    · simp [runAllSteps, runStep_snd, runCommand]
    · simp [runAllSteps, runStep_snd, runCommand]
  · intro args h
    simp [main, (parseSkipBuild_iff args).mpr h]
  · intro args h
    have : parseSkipBuild args = false := by
      cases hp : parseSkipBuild args
      · rfl
      · exact absurd ((parseSkipBuild_iff args).mp hp) h
    simp [main, this]

/-- C7 at a concrete run: with `--skip-build` among the arguments the recorded
steps are those of the run with the flag set. -/
theorem runAllSteps_skipBuild_frame_witness :
    (main lintFailsWorld ["--skip-build"]).2.1 = (runAllSteps lintFailsWorld true).1 ∧
    (main lintFailsWorld []).2.1 = (runAllSteps lintFailsWorld false).1 :=
  ⟨(runAllSteps_skipBuild_frame lintFailsWorld).2.2.2.2.2.1 ["--skip-build"] (by decide!),
    (runAllSteps_skipBuild_frame lintFailsWorld).2.2.2.2.2.2 [] (by decide!)⟩

end Verify

namespace Verify

open filepath

mutual
/-- Every entry listed below a node has the given ancestors above it. -/
theorem entriesOf_ancestors (path : String) (anc : List String) (d : String) (hd : d ∈ anc) :
    ∀ (n : Node), ∀ e ∈ entriesOf path anc n, d ∈ e.ancestors
  | .file name regular => by
    intro e he
    simp only [entriesOf, List.mem_singleton] at he
    subst he
    exact hd
  | .broken _ => by
    intro e he
    simp [entriesOf] at he
  | .dir _ none => by
    intro e he
    simp [entriesOf] at he
  | .dir name (some listing) => by
    intro e he
    simp only [entriesOf] at he
    exact entriesIn_ancestors path (anc ++ [name]) d (List.mem_append_left _ hd) listing e he
/-- The same for the entries below a listing. -/
theorem entriesIn_ancestors (path : String) (anc : List String) (d : String) (hd : d ∈ anc) :
    ∀ (l : List Node), ∀ e ∈ entriesIn path anc l, d ∈ e.ancestors
  | [] => by
    intro e he
    simp [entriesIn] at he
  | n :: rest => by
    intro e he
    simp only [entriesIn, List.mem_append] at he
    rcases he with he | he
    · exact entriesOf_ancestors (Join path n.name) anc d hd n e he
    · exact entriesIn_ancestors path anc d hd rest e he
end

end Verify

namespace Verify

open filepath

theorem eligiblePaths_append (a b : List Entry) :
    eligiblePaths (a ++ b) = eligiblePaths a ++ eligiblePaths b := by
  simp [eligiblePaths]

/-- Nothing below an excluded directory is eligible. -/
theorem eligiblePaths_of_excluded (es : List Entry) (d : String)
    (hd : isExcludedDir d = true) (h : ∀ e ∈ es, d ∈ e.ancestors) :
    eligiblePaths es = [] := by
  unfold eligiblePaths
  rw [List.map_eq_nil_iff, List.filter_eq_nil_iff]
  intro e he
  have hmem := h e he
  have : e.ancestors.all (fun d => !isExcludedDir d) = false := by
    rw [Bool.eq_false_iff]
    intro hall
    rw [List.all_eq_true] at hall
    have := hall d hmem
    simp [hd] at this
  simp [eligible, this]

/-- What the callback does with an entry that is not a directory. -/
theorem collectFn_file (path name : String) (regular : Bool) (anc : List String)
    (hanc : ∀ d ∈ anc, isExcludedDir d = false) (s : List String) :
    collectFn path (.ok ⟨name, false, regular⟩) s =
      (none, s ++ eligiblePaths [⟨path, name, regular, anc⟩]) := by
  have hall : anc.all (fun d => !isExcludedDir d) = true := by
    rw [List.all_eq_true]
    intro d hd
    simp [hanc d hd]
  by_cases h1 : (strings.HasSuffix name ".ts" || strings.HasSuffix name ".tsx") = true
  · by_cases h2 : (strings.HasPrefix path "apps/" || strings.HasPrefix path "packages/") = true
    · simp [collectFn, eligiblePaths, eligible, h1, h2, hall]
    · simp [collectFn, eligiblePaths, eligible, h1, h2, hall]
  · simp [collectFn, eligiblePaths, eligible, h1, hall]

mutual
/-- The walk with the callback of the scan step adds to `tsFiles` the paths of the
eligible entries below the node, in listing order, and returns no error other
than `SkipDir`. -/
theorem walk_collectFn (path : String) (anc : List String)
    (hanc : ∀ d ∈ anc, isExcludedDir d = false) :
    ∀ (n : Node) (s : List String),
      (walk collectFn path n s).2 = s ++ eligiblePaths (entriesOf path anc n) ∧
      ((walk collectFn path n s).1 = none ∨ (walk collectFn path n s).1 = some .SkipDir)
  | .file name regular, s => by
    simp only [walk, entriesOf]
    rw [collectFn_file path name regular anc hanc s]
    exact ⟨rfl, Or.inl rfl⟩
  | .broken _, s => by
    simp [walk, entriesOf, collectFn, eligiblePaths]
  | .dir _ none, s => by
    simp [walk, entriesOf, collectFn, eligiblePaths]
  | .dir name (some listing), s => by
    by_cases hx : isExcludedDir name = true
    · have hnil : eligiblePaths (entriesIn path (anc ++ [name]) listing) = [] :=
        eligiblePaths_of_excluded _ name hx
          (entriesIn_ancestors path (anc ++ [name]) name (by simp) listing)
      simp [walk, entriesOf, collectFn, hx, hnil]
    · have hx2 : isExcludedDir name = false := by simpa using hx
      have hanc2 : ∀ d ∈ anc ++ [name], isExcludedDir d = false := by
        intro d hd
        rcases List.mem_append.mp hd with h | h
        · exact hanc d h
        · rw [List.mem_singleton.mp h]
          exact hx2
      have ih := walkEntries_collectFn path (anc ++ [name]) hanc2 listing s
      simp [walk, entriesOf, collectFn, hx2, ih]
/-- The loop over a listing adds the eligible entries below its nodes and never
stops early. -/
theorem walkEntries_collectFn (path : String) (anc : List String)
    (hanc : ∀ d ∈ anc, isExcludedDir d = false) :
    ∀ (l : List Node) (s : List String),
      walkEntries collectFn path l s = (none, s ++ eligiblePaths (entriesIn path anc l))
  | [], s => by
    simp [walkEntries, entriesIn, eligiblePaths]
  | .broken name :: rest, s => by
    have ih := walkEntries_collectFn path anc hanc rest s
    simp [walkEntries, entriesIn, entriesOf, collectFn, ih]
  | .file name regular :: rest, s => by
    have ih := walkEntries_collectFn path anc hanc rest
      (s ++ eligiblePaths [⟨Join path name, name, regular, anc⟩])
    simp only [walkEntries, walk, entriesIn, entriesOf, Node.name]
    rw [collectFn_file (Join path name) name regular anc hanc s]
    simp only [ih, eligiblePaths_append, List.append_assoc]
  | .dir name listing :: rest, s => by
    have h := walk_collectFn (Join path name) anc hanc (.dir name listing) s
    have ih := walkEntries_collectFn path anc hanc rest
      (s ++ eligiblePaths (entriesOf (Join path name) anc (.dir name listing)))
    simp only [walkEntries, entriesIn, Node.name, eligiblePaths_append]
    rcases hw : walk collectFn (Join path name) (.dir name listing) s with ⟨r, s1⟩
    rw [hw] at h
    simp only at h
    obtain ⟨h2, h1⟩ := h
    subst h2
    rcases h1 with h1 | h1
    · subst h1
      simp only [ih, List.append_assoc]
    · subst h1
      simp [ih, List.append_assoc]
end

/-- The walk of the scan step never returns an error, and it leaves in `tsFiles`
exactly the paths of the eligible entries of the tree, in listing order. -/
theorem Walk_collectFn (root : Node) :
    Walk "." root collectFn [] = (none, eligiblePaths (entriesOf "." [] root)) := by
  have h := walk_collectFn "." [] (by simp) root []
  unfold Walk
  rcases hw : walk collectFn "." root [] with ⟨r, s1⟩
  rw [hw] at h
  simp only [List.nil_append] at h
  obtain ⟨h2, h1⟩ := h
  subst h2
  rcases h1 with h1 | h1 <;> subst h1 <;> rfl

end Verify

namespace Verify

open filepath

theorem collected_eq (root : Node) :
    collected root = eligiblePaths (entriesOf "." [] root) := by
  unfold collected
  rw [Walk_collectFn]

/-- The scan step in terms of the candidates: skipped when there is none, else the
scanner is run on the first 500 of them and its outcome is the result. -/
theorem runAntiPatternStep_eq (w : World) :
    runAntiPatternStep w =
      if collected w.root = [] then
        (⟨"anti-patterns", "Anti-pattern Scan", .resultSkip⟩,
          [Event.header "4/7" "Anti-pattern Scan"])
      else
        (⟨"anti-patterns", "Anti-pattern Scan",
            outcome (w.fails (scannerArgv ((collected w.root).take 500)))⟩,
          [Event.header "4/7" "Anti-pattern Scan",
            Event.exec (scannerArgv ((collected w.root).take 500))]) := by
  have hW := Walk_collectFn w.root
  rw [← collected_eq] at hW
  unfold runAntiPatternStep
  rw [hW]
  have htr : (if (collected w.root).length > 500 then (collected w.root).take 500
      else collected w.root) = (collected w.root).take 500 := by
    by_cases h : (collected w.root).length > 500
    · simp [h]
    · rw [if_neg h, List.take_of_length_le (Nat.le_of_not_gt h)]
  by_cases h0 : collected w.root = []
  · simp [h0]
  · have h0l : ¬ (collected w.root).length = 0 := by
      intro h
      exact h0 (List.length_eq_zero.mp h)
    simp only [h0, h0l, if_false, htr]
    by_cases hf : w.fails (scannerArgv ((collected w.root).take 500)) = true
    · simp [hf, outcome]
    · simp [hf, outcome]

theorem isExcludedDir_eq_false_iff (d : String) :
    isExcludedDir d = false ↔
      d ∉ ["node_modules", ".next", "dist", "coverage", ".git"] := by
  simp [isExcludedDir, and_assoc]

theorem eligible_iff (e : Entry) :
    eligible e = true ↔
      (strings.HasSuffix e.name ".ts" = true ∨ strings.HasSuffix e.name ".tsx" = true) ∧
      (strings.HasPrefix e.path "apps/" = true ∨ strings.HasPrefix e.path "packages/" = true) ∧
      ∀ d ∈ e.ancestors, d ∉ ["node_modules", ".next", "dist", "coverage", ".git"] := by
  unfold eligible
  simp only [Bool.and_eq_true, Bool.or_eq_true, List.all_eq_true, Bool.not_eq_true']
  constructor
  · rintro ⟨⟨h1, h2⟩, h3⟩
    exact ⟨h1, h2, fun d hd => (isExcludedDir_eq_false_iff d).mp (h3 d hd)⟩
  · rintro ⟨h1, h2, h3⟩
    exact ⟨⟨h1, h2⟩, fun d hd => (isExcludedDir_eq_false_iff d).mpr (h3 d hd)⟩

/-- C8, as the code has it: the paths the walk collects are, in the order of the
walk, exactly the paths of the reachable entries that are not directories
(regular files or not: a symbolic link is not followed and counts as a file), whose
name ends in `.ts` or `.tsx`, whose path begins with `apps/` or `packages/`, and
which have no directory above them, at any depth, named `node_modules`, `.next`,
`dist`, `coverage` or `.git`. -/
theorem collected_iff_eligible (root : Node) :
    collected root = ((entriesOf "." [] root).filter eligible).map Entry.path ∧
    (∀ p ∈ collected root, ∃ e ∈ entriesOf "." [] root, e.path = p ∧
      (strings.HasSuffix e.name ".ts" = true ∨ strings.HasSuffix e.name ".tsx" = true) ∧
      (strings.HasPrefix p "apps/" = true ∨ strings.HasPrefix p "packages/" = true) ∧
      ∀ d ∈ e.ancestors, d ∉ ["node_modules", ".next", "dist", "coverage", ".git"]) ∧
    (∀ e ∈ entriesOf "." [] root,
      (strings.HasSuffix e.name ".ts" = true ∨ strings.HasSuffix e.name ".tsx" = true) →
      (strings.HasPrefix e.path "apps/" = true ∨ strings.HasPrefix e.path "packages/" = true) →
      (∀ d ∈ e.ancestors, d ∉ ["node_modules", ".next", "dist", "coverage", ".git"]) →
      e.path ∈ collected root) := by
  have hc := collected_eq root
  unfold eligiblePaths at hc
  refine ⟨hc, ?_, ?_⟩
  · intro p hp
    rw [hc, List.mem_map] at hp
    obtain ⟨e, he, hpe⟩ := hp
    rw [List.mem_filter] at he
    obtain ⟨h1, h2, h3⟩ := (eligible_iff e).mp he.2
    subst hpe
    exact ⟨e, he.1, rfl, h1, h2, h3⟩
  · intro e he h1 h2 h3
    rw [hc, List.mem_map]
    exact ⟨e, List.mem_filter.mpr ⟨he, (eligible_iff e).mpr ⟨h1, h2, h3⟩⟩, rfl⟩

/-- C8 at a concrete tree: the walk collects the two eligible files in listing
order, and the eligible entry `apps/web/page.tsx` is among them. -/
theorem collected_iff_eligible_witness :
    collected sampleTree = ["apps/web/page.tsx", "packages/index.ts"] ∧
    "apps/web/page.tsx" ∈ collected sampleTree :=
  ⟨by decide!,
    (collected_iff_eligible sampleTree).2.2
      ⟨"apps/web/page.tsx", "page.tsx", true, [".", "apps", "web"]⟩
      (by decide!) (by decide!) (by decide!) (by decide!)⟩

/-- C8 as stated fails: the walk collects `apps/link.ts`, a symbolic link, which is
not a regular file. -/
theorem collected_symlink_not_regular :
    collected symlinkTree = ["apps/link.ts"] ∧
    entriesOf "." [] symlinkTree = [⟨"apps/link.ts", "link.ts", false, [".", "apps"]⟩] ∧
    ¬ ∃ e ∈ entriesOf "." [] symlinkTree, e.path = "apps/link.ts" ∧ e.regular = true := by
  decide!

/-- C9, as the code has it: when the walk finds more than 500 candidates the
scanner is run on exactly the first 500 in walk order, and the step result is the
outcome of the scanner, the truncation being no error; when it finds between 1 and
500 candidates the scanner is run on the unchanged list; when it finds none the
scanner is not run and the step is recorded as Skipped. -/
theorem runAntiPatternStep_truncation (w : World) :
    (500 < (collected w.root).length →
      execs (runAntiPatternStep w).2 = [scannerArgv ((collected w.root).take 500)] ∧
      ((collected w.root).take 500).length = 500 ∧
      (runAntiPatternStep w).1.result =
        outcome (w.fails (scannerArgv ((collected w.root).take 500)))) ∧
    (0 < (collected w.root).length → (collected w.root).length ≤ 500 →
      execs (runAntiPatternStep w).2 = [scannerArgv (collected w.root)] ∧
      (runAntiPatternStep w).1.result = outcome (w.fails (scannerArgv (collected w.root)))) ∧
    ((collected w.root).length = 0 →
      execs (runAntiPatternStep w).2 = [] ∧
      (runAntiPatternStep w).1.result = .resultSkip) := by
  have h := runAntiPatternStep_eq w
  refine ⟨?_, ?_, ?_⟩
  · intro hlen
    have hne : collected w.root ≠ [] := by
      intro h0
      rw [h0] at hlen
      exact absurd hlen (by decide)
    rw [h, if_neg hne]
    refine ⟨by simp [execs], ?_, rfl⟩
    rw [List.length_take]
    exact Nat.min_eq_left (Nat.le_of_lt hlen)
  · intro hpos hle
    have hne : collected w.root ≠ [] := by
      intro h0
      rw [h0] at hpos
      exact absurd hpos (by decide)
    rw [h, if_neg hne, List.take_of_length_le hle]
    exact ⟨by simp [execs], rfl⟩
  · intro h0
    rw [h, if_pos (List.length_eq_zero.mp h0)]
    exact ⟨by simp [execs], rfl⟩

/-- C9 at concrete trees: with 676 candidates the scanner gets the first 500; with
one candidate it gets that one; with none it is not run. -/
theorem runAntiPatternStep_truncation_witness :
    (execs (runAntiPatternStep bigWorld).2 =
        [scannerArgv ((collected bigWorld.root).take 500)] ∧
      ((collected bigWorld.root).take 500).length = 500 ∧
      (runAntiPatternStep bigWorld).1.result =
        outcome (bigWorld.fails (scannerArgv ((collected bigWorld.root).take 500)))) ∧
    (execs (runAntiPatternStep lockedWorld).2 = [scannerArgv (collected lockedWorld.root)] ∧
      (runAntiPatternStep lockedWorld).1.result =
        outcome (lockedWorld.fails (scannerArgv (collected lockedWorld.root)))) ∧
    (execs (runAntiPatternStep emptyWorld).2 = [] ∧
      (runAntiPatternStep emptyWorld).1.result = .resultSkip) :=
  ⟨(runAntiPatternStep_truncation bigWorld).1 (by decide!),
    (runAntiPatternStep_truncation lockedWorld).2.1 (by decide!) (by decide!),
    (runAntiPatternStep_truncation emptyWorld).2.2 (by decide!)⟩

/-- C9 as stated fails: on a tree without candidates (0 is at most 500) no list is
handed to the scanner, which is not run at all; the step is recorded as Skipped. -/
theorem runAntiPatternStep_no_candidates :
    (collected emptyWorld.root).length ≤ 500 ∧
    execs (runAntiPatternStep emptyWorld).2 ≠ [scannerArgv (collected emptyWorld.root)] ∧
    runAntiPatternStep emptyWorld =
      (⟨"anti-patterns", "Anti-pattern Scan", .resultSkip⟩,
        [Event.header "4/7" "Anti-pattern Scan"]) := by
  decide!

end Verify

namespace Verify

open filepath

/-- C10, as the code has it: when the walk callback is called with a non-nil error
for an entry it returns nil, so the entry is passed over (an unreadable directory
is not descended into), the walk goes on with the remaining entries and never
returns an error; the scan step is therefore Failed only when the scanner command
fails, never because of an unreadable subtree. A file that the scanner cannot read
contributes zero violations and no output, and is no error. -/
theorem walk_errors_passed_over (w : World) :
    (∀ (path : String) (info : FileInfo) (s : List String),
      collectFn path (.readErr info) s = (none, s)) ∧
    (∀ (path : String) (s : List String), collectFn path .statErr s = (none, s)) ∧
    (∀ (path name : String) (rest : List Node) (s : List String),
      walkEntries collectFn path (.dir name none :: rest) s =
        walkEntries collectFn path rest s ∧
      walkEntries collectFn path (.broken name :: rest) s =
        walkEntries collectFn path rest s) ∧
    (Walk "." w.root collectFn []).1 = none ∧
    ((runAntiPatternStep w).1.result = .resultFail ↔
      collected w.root ≠ [] ∧ w.fails (scannerArgv ((collected w.root).take 500)) = true) ∧
    (∀ (readFile : String → Option String) (file : String)
        (ps : List CheckAntiPatterns.antiPattern),
      readFile file = none → CheckAntiPatterns.checkFile readFile file ps = some (0, [])) ∧
    (∀ (readFile : String → Option String) (file : String) (rest : List String),
      readFile file = none →
      CheckAntiPatterns.scanFiles readFile (file :: rest) =
        CheckAntiPatterns.scanFiles readFile rest) := by
  refine ⟨fun _ _ _ => rfl, fun _ _ => rfl, ?_, ?_, ?_, ?_, ?_⟩
  · intro path name rest s
    constructor
    · simp [walkEntries, walk, collectFn]
    · simp [walkEntries, collectFn]
  · rw [Walk_collectFn]
  · rw [runAntiPatternStep_eq]
    by_cases h0 : collected w.root = []
    · simp [h0]
    · by_cases hf : w.fails (scannerArgv ((collected w.root).take 500)) = true
      · simp [h0, hf, outcome]
      · simp [h0, hf, outcome]
  · intro readFile file ps h
    simp [CheckAntiPatterns.checkFile, h]
  · intro readFile file rest h
    by_cases hs : CheckAntiPatterns.shouldSkip file = true
    · simp [CheckAntiPatterns.scanFiles, hs]
    · simp only [CheckAntiPatterns.scanFiles, hs, CheckAntiPatterns.checkFile, h]
      cases CheckAntiPatterns.scanFiles readFile rest <;> simp

/-- C10 at a concrete input: an unreadable file given to the scanner counts for
nothing, and the step over a tree with an unreadable directory is not Failed. -/
theorem walk_errors_passed_over_witness :
    CheckAntiPatterns.checkFile (fun _ => none) "apps/a.ts" CheckAntiPatterns.patterns =
      some (0, []) ∧
    ¬ (runAntiPatternStep lockedWorld).1.result = .resultFail :=
  ⟨(walk_errors_passed_over lockedWorld).2.2.2.2.2.1 (fun _ => none) "apps/a.ts"
      CheckAntiPatterns.patterns rfl,
    fun h => absurd ((walk_errors_passed_over lockedWorld).2.2.2.2.1.mp h).2 (by decide!)⟩

/-- C10 as stated fails: the walk meets the unreadable directory `apps/locked` (the
callback is called with the read error), is not aborted (the later `apps/z.ts` is
still collected), returns no error, and the step is recorded as Passed. -/
theorem unreadable_subtree_not_failed :
    walk collectFn "apps/locked" (.dir "locked" none) [] =
      collectFn "apps/locked" (.readErr ⟨"locked", true, false⟩) [] ∧
    Walk "." lockedWorld.root collectFn [] = (none, ["apps/z.ts"]) ∧
    runAntiPatternStep lockedWorld =
      (⟨"anti-patterns", "Anti-pattern Scan", .resultPass⟩,
        [Event.header "4/7" "Anti-pattern Scan",
          Event.exec ["go", "run", "scripts/check-anti-patterns.go", "apps/z.ts"]]) := by
  decide!

end Verify

namespace CheckAntiPatterns

open regexp

/-- With the five patterns of `main`, `checkFile` never panics. -/
theorem checkFile_patterns (readFile : String → Option String) (file : String) :
    checkFile readFile file patterns =
      match readFile file with
      | none => some (0, [])
      | some content =>
        if Match emptyCatchRe content.data then
          some ((scanPatterns file content.data (patterns.take 4)).1 + 1,
            (scanPatterns file content.data (patterns.take 4)).2 ++
              [Report.blocked "Empty catch block" file])
        else some (scanPatterns file content.data (patterns.take 4)) := by
  unfold checkFile
  cases readFile file with
  | none => rfl
  | some content =>
    simp only [patterns, List.length_cons, List.length_nil, List.get?]
    rfl

theorem checkFile_patterns_isSome (readFile : String → Option String) (file : String) :
    ∃ a, checkFile readFile file patterns = some a := by
  rw [checkFile_patterns]
  cases readFile file with
  | none => exact ⟨_, rfl⟩
  | some content =>
    by_cases h : Match emptyCatchRe content.data = true
    · simp [h]
    · simp [h]

/-- The loop of `main` returns the total of the per-file counts. -/
theorem scanFiles_total (readFile : String → Option String) (files : List String) :
    ∃ out, scanFiles readFile files = some (totalViolations readFile files, out) := by
  induction files with
  | nil => exact ⟨[], rfl⟩
  | cons file rest ih =>
    obtain ⟨out, hout⟩ := ih
    by_cases hs : shouldSkip file = true
    · refine ⟨out, ?_⟩
      simp [scanFiles, hs, hout, totalViolations, fileViolations]
    · obtain ⟨a, ha⟩ := checkFile_patterns_isSome readFile file
      refine ⟨a.2 ++ out, ?_⟩
      simp [scanFiles, hs, hout, ha, totalViolations, fileViolations]

/-- C3, as the code has it: for every non-empty list of file-path arguments and
every file contents the scanner exits 1 if the total violation count, summed over
the given files, is greater than 0, and 0 otherwise; with no file argument it
prints the usage message and exits 1. -/
theorem main_exit_code (readFile : String → Option String) (files : List String) :
    (files ≠ [] →
      ∃ out, main readFile files =
        some (if 0 < totalViolations readFile files then 1 else 0, out)) ∧
    (files = [] → main readFile files = some (1, [Report.usage])) := by
  constructor
  · intro hne
    obtain ⟨out, hout⟩ := scanFiles_total readFile files
    have hlen : ¬ files.length + 1 < 2 := by
      cases files with
      | nil => exact absurd rfl hne
      | cons f r => simp
    by_cases ht : 0 < totalViolations readFile files
    · refine ⟨out ++ [Report.commitBlocked (totalViolations readFile files)], ?_⟩
      simp [main, hlen, hout, ht]
    · refine ⟨out, ?_⟩
      simp [main, hlen, hout, ht]
  · intro h
    subst h
    rfl

end CheckAntiPatterns

namespace CheckAntiPatterns

/-- C3 at concrete inputs: a file with one violation gives exit code 1, a clean
file gives exit code 0. -/
theorem main_exit_code_witness :
    (∃ out, main (constFiles "console.log(1)\n") ["apps/a.ts"] =
      some (if 0 < totalViolations (constFiles "console.log(1)\n") ["apps/a.ts"] then 1 else 0,
        out)) ∧
    main (constFiles "console.log(1)\n") ["apps/a.ts"] =
      some (1, [Report.line 1 "console.log(1)", Report.blocked "'console.log'" "apps/a.ts",
        Report.commitBlocked 1]) ∧
    main (constFiles "const a = 1;\n") ["apps/a.ts"] = some (0, []) :=
  ⟨(main_exit_code (constFiles "console.log(1)\n") ["apps/a.ts"]).1 (by decide!),
    by decide!, by decide!⟩

/-- C3 as stated fails: with an empty list of file arguments the total violation
count is 0 and the scanner exits 1. -/
theorem main_no_files_exits_one :
    totalViolations (constFiles "") [] = 0 ∧
    main (constFiles "") [] = some (1, [Report.usage]) := by
  decide!

/-- C4: for every file path whose base name contains `.test.`, `.spec.` or
`__tests__`, or which contains `/scripts/` or starts with `scripts/`, `shouldSkip`
returns true, and whatever the file contents the file contributes zero violations
and no output to the scan: the scan of a list with the file is the scan of the
list without it. -/
theorem skipped_file_contributes_nothing (file : String)
    (h : strings.Contains (filepath.Base file) ".test." = true ∨
      strings.Contains (filepath.Base file) ".spec." = true ∨
      strings.Contains (filepath.Base file) "__tests__" = true ∨
      strings.Contains file "/scripts/" = true ∨
      strings.HasPrefix file "scripts/" = true) :
    shouldSkip file = true ∧
    ∀ readFile : String → Option String,
      fileViolations readFile file = 0 ∧
      (∀ pre post : List String,
        scanFiles readFile (pre ++ file :: post) = scanFiles readFile (pre ++ post) ∧
        totalViolations readFile (pre ++ file :: post) =
          totalViolations readFile (pre ++ post)) ∧
      main readFile [file] = some (0, []) := by
  have hs : shouldSkip file = true := by
    unfold shouldSkip
    rcases h with h | h | h | h | h <;> simp [h]
  refine ⟨hs, fun readFile => ⟨?_, ?_, ?_⟩⟩
  · simp [fileViolations, hs]
  · intro pre post
    constructor
    · induction pre with
      | nil => simp [scanFiles, hs]
      | cons f r ih =>
        have ih2 : scanFiles readFile (r.append (file :: post)) =
            scanFiles readFile (r.append post) := ih
        simp only [List.cons_append, scanFiles, ih2]
    · simp [totalViolations, fileViolations, hs]
  · simp [main, scanFiles, hs]

/-- C4 at a concrete input: a test file full of forbidden constructs is skipped,
while the same contents under another name are reported. -/
theorem skipped_file_contributes_nothing_witness :
    (shouldSkip "apps/web/src/app.test.ts" = true ∧
      ∀ readFile : String → Option String,
        fileViolations readFile "apps/web/src/app.test.ts" = 0 ∧
        (∀ pre post : List String,
          scanFiles readFile (pre ++ "apps/web/src/app.test.ts" :: post) =
            scanFiles readFile (pre ++ post) ∧
          totalViolations readFile (pre ++ "apps/web/src/app.test.ts" :: post) =
            totalViolations readFile (pre ++ post)) ∧
        main readFile ["apps/web/src/app.test.ts"] = some (0, [])) ∧
    fileViolations (constFiles "console.log(x as any)\n") "apps/web/src/app.test.ts" = 0 ∧
    fileViolations (constFiles "console.log(x as any)\n") "apps/web/src/app.ts" = 2 ∧
    shouldSkip "packages/scripts/gen.ts" = true ∧
    shouldSkip "scripts/verify.ts" = true :=
  ⟨skipped_file_contributes_nothing "apps/web/src/app.test.ts" (Or.inl (by decide!)),
    by decide!, by decide!, by decide!, by decide!⟩

end CheckAntiPatterns

/-! ## The line scanner and the patterns -/

namespace bufio

theorem splitLines_replicate (n : Nat) (rest : List Char) :
    splitLines (List.replicate n 'x' ++ '\n' :: rest) =
      List.replicate n 'x' :: splitLines rest := by
  induction n with
  | zero => simp [splitLines]
  | succ k ih =>
    have hx : ¬ ('x' = '\n') := by decide
    have hs : splitLines ('x' :: (List.replicate k 'x' ++ '\n' :: rest)) =
        match splitLines (List.replicate k 'x' ++ '\n' :: rest) with
        | [] => [['x']]
        | l :: ls => ('x' :: l) :: ls := by
      rw [splitLines, if_neg hx]
    rw [List.replicate_succ, List.cons_append, hs, ih]

theorem byteLen_replicate (n : Nat) : byteLen (List.replicate n 'x') = n := by
  induction n with
  | zero => rfl
  | succ k ih =>
    have h1 : Char.utf8Size 'x' = 1 := by decide
    have hc : byteLen ('x' :: List.replicate k 'x') = 1 + byteLen (List.replicate k 'x') := by
      simp [byteLen, h1]
    rw [List.replicate_succ, hc, ih, Nat.add_comm]

/-- A first line that does not fit the buffer ends the scan before any token. -/
theorem scanTokens_long_first_line (n : Nat) (rest : List Char)
    (h : MaxScanTokenSize ≤ n) :
    scanTokens (List.replicate n 'x' ++ '\n' :: rest) = [] := by
  unfold scanTokens
  rw [splitLines_replicate]
  have : ¬ (byteLen (List.replicate n 'x') < MaxScanTokenSize) := by
    rw [byteLen_replicate]
    exact Nat.not_lt.mpr h
  simp [List.takeWhile, this]

end bufio

namespace regexp

theorem mem_ends_seq {r s : Regex} {q q1 q2 : Pos} (h1 : q1 ∈ ends r q)
    (h2 : q2 ∈ ends s q1) : q2 ∈ ends (.seq r s) q := by
  simp only [ends, List.mem_flatMap]
  exact ⟨q1, h1, h2⟩

theorem mem_ends_char (c : Char) (p : Option Char) (s : List Char) :
    (some c, s) ∈ ends (.char c) (p, c :: s) := by
  simp [ends]

theorem mem_ends_lit (l : List Char) :
    ∀ (p : Option Char) (s : List Char), (prevAfter p l, s) ∈ ends (lit l) (p, l ++ s) := by
  induction l with
  | nil =>
    intro p s
    simp [lit, ends, prevAfter]
  | cons c cs ih =>
    intro p s
    exact mem_ends_seq (mem_ends_char c p (cs ++ s)) (ih (some c) s)

theorem mem_starEnds_cls (f : Char → Bool) (l : List Char) :
    ∀ (n : Nat) (p : Option Char) (s : List Char), l.length ≤ n → (∀ c ∈ l, f c = true) →
      (prevAfter p l, s) ∈ starEnds (ends (.cls f)) n (p, l ++ s) := by
  induction l with
  | nil =>
    intro n p s _ _
    cases n <;> simp [starEnds, prevAfter]
  | cons c cs ih =>
    intro n p s hn hf
    cases n with
    | zero => simp at hn
    | succ k =>
      have hk : cs.length ≤ k := by simpa using hn
      have hc : f c = true := hf c (List.mem_cons_self _ _)
      have hrest : ∀ d ∈ cs, f d = true := fun d hd => hf d (List.mem_cons_of_mem _ hd)
      have := ih k (some c) s hk hrest
      have he : ends (.cls f) (p, c :: (cs ++ s)) = [(some c, cs ++ s)] := by
        simp [ends, hc]
      show (prevAfter (some c) cs, s) ∈ starEnds (ends (.cls f)) (k + 1) (p, c :: (cs ++ s))
      rw [starEnds, he]
      simp [this]

/-- A run of characters of a class is matched by the star of the class. -/
theorem mem_ends_star_cls (f : Char → Bool) (l : List Char) (p : Option Char)
    (s : List Char) (hf : ∀ c ∈ l, f c = true) :
    (prevAfter p l, s) ∈ ends (.star (.cls f)) (p, l ++ s) := by
  simp only [ends]
  exact mem_starEnds_cls f l _ p s (by simp) hf

/-- A match that starts after a prefix of the text is found by the search. -/
theorem searchFrom_of_ends (r : Regex) (pre : List Char) :
    ∀ (p : Option Char) (s : List Char) (q : Pos), q ∈ ends r (prevAfter p pre, s) →
      searchFrom r p (pre ++ s) = true := by
  induction pre with
  | nil =>
    intro p s q hq
    have hne : (ends r (p, s)).isEmpty = false := by
      cases h : ends r (p, s) with
      | nil => rw [prevAfter, h] at hq; simp at hq
      | cons a as => rfl
    cases s with
    | nil => simp [searchFrom, hne]
    | cons c cs => simp [searchFrom, hne]
  | cons c cs ih =>
    intro p s q hq
    simp only [List.cons_append, searchFrom, Bool.or_eq_true]
    right
    exact ih (some c) s q hq

end regexp

namespace CheckAntiPatterns

open regexp

/-- The line loop counts the tokens that match and prints, for each of them in
order, its 1-based number with its text and then the pattern name. -/
theorem scanPattern_eq (p : antiPattern) (file : String) (ls : List (List Char)) :
    ∀ k : Nat, scanPattern p file k ls =
      ((ls.filter (fun l => Match p.pattern l)).length,
        ((ls.enumFrom (k + 1)).filter (fun il => Match p.pattern il.2)).flatMap
          (fun il => [Report.line il.1 ⟨il.2⟩, Report.blocked p.name file])) := by
  induction ls with
  | nil =>
    intro k
    rfl
  | cons l rest ih =>
    intro k
    by_cases hm : Match p.pattern l = true
    · simp [scanPattern, hm, ih (k + 1), List.enumFrom]
    · simp [scanPattern, hm, ih (k + 1), List.enumFrom]

/-- What the line loop of one pattern prints. -/
theorem mem_scanPattern (p : antiPattern) (file : String) (ls : List (List Char)) :
    ∀ (k : Nat) (r : Report), r ∈ (scanPattern p file k ls).2 →
      r = Report.blocked p.name file ∨ ∃ n t, r = Report.line n t := by
  induction ls with
  | nil =>
    intro k r h
    simp [scanPattern] at h
  | cons l rest ih =>
    intro k r h
    by_cases hm : Match p.pattern l = true
    · simp only [scanPattern, hm, if_true, List.mem_cons] at h
      rcases h with h | h | h
      · exact Or.inr ⟨_, _, h⟩
      · exact Or.inl h
      · exact ih _ r h
    · simp only [scanPattern, hm] at h
      exact ih _ r h

/-- What the line loops of a list of patterns print. -/
theorem mem_scanPatterns (file : String) (content : List Char) (ps : List antiPattern) :
    ∀ r ∈ (scanPatterns file content ps).2,
      (∃ p ∈ ps, r = Report.blocked p.name file) ∨ ∃ n t, r = Report.line n t := by
  induction ps with
  | nil =>
    intro r h
    simp [scanPatterns] at h
  | cons p rest ih =>
    intro r h
    simp only [scanPatterns, List.mem_append] at h
    rcases h with h | h
    · rcases mem_scanPattern p file _ 0 r h with h1 | h1
      · exact Or.inl ⟨p, List.mem_cons_self _ _, h1⟩
      · exact Or.inr h1
    · rcases ih r h with ⟨q, hq, h1⟩ | h1
      · exact Or.inl ⟨q, List.mem_cons_of_mem _ hq, h1⟩
      · exact Or.inr h1

/-- The text of an empty catch block is matched by the whole-file pattern wherever
it stands. -/
theorem emptyCatchRe_matches (pre ws1 param ws2 ws3 post : List Char)
    (h1 : ∀ c ∈ ws1, isSpace c = true) (hp : ∀ c ∈ param, c ≠ ')')
    (h2 : ∀ c ∈ ws2, isSpace c = true) (h3 : ∀ c ∈ ws3, isSpace c = true) :
    Match emptyCatchRe (pre ++ emptyCatchText ws1 param ws2 ws3 ++ post) = true := by
  have hp2 : ∀ c ∈ param, (fun c => c != ')') c = true := by
    intro c hc
    simp [hp c hc]
  let p0 := prevAfter none pre
  let p1 := prevAfter p0 "catch".data
  let p2 := prevAfter p1 ws1
  let p3 := prevAfter (some '(') param
  let p4 := prevAfter (some ')') ws2
  let p5 := prevAfter (some '\x7b') ws3
  have e8 : (some '\x7d', post) ∈ ends (.char '\x7d') (p5, '\x7d' :: post) :=
    mem_ends_char _ _ _
  have e7 := mem_ends_seq (mem_ends_star_cls isSpace ws3 (some '\x7b') ('\x7d' :: post) h3) e8
  have e6 := mem_ends_seq (mem_ends_char '\x7b' p4 (ws3 ++ '\x7d' :: post)) e7
  have e5 := mem_ends_seq
    (mem_ends_star_cls isSpace ws2 (some ')') ('\x7b' :: (ws3 ++ '\x7d' :: post)) h2) e6
  have e4 := mem_ends_seq
    (mem_ends_char ')' p3 (ws2 ++ '\x7b' :: (ws3 ++ '\x7d' :: post))) e5
  have e3 := mem_ends_seq
    (mem_ends_star_cls (fun c => c != ')') param (some '(')
      (')' :: (ws2 ++ '\x7b' :: (ws3 ++ '\x7d' :: post))) hp2) e4
  have e2 := mem_ends_seq
    (mem_ends_char '(' p2 (param ++ ')' :: (ws2 ++ '\x7b' :: (ws3 ++ '\x7d' :: post)))) e3
  have e1 := mem_ends_seq
    (mem_ends_star_cls isSpace ws1 p1
      ('(' :: (param ++ ')' :: (ws2 ++ '\x7b' :: (ws3 ++ '\x7d' :: post)))) h1) e2
  have e0 := mem_ends_seq
    (mem_ends_lit "catch".data p0
      (ws1 ++ '(' :: (param ++ ')' :: (ws2 ++ '\x7b' :: (ws3 ++ '\x7d' :: post))))) e1
  have hs := searchFrom_of_ends _ pre none _ _ e0
  have htext : pre ++ emptyCatchText ws1 param ws2 ws3 ++ post =
      pre ++ ("catch".data ++
        (ws1 ++ '(' :: (param ++ ')' :: (ws2 ++ '\x7b' :: (ws3 ++ '\x7d' :: post))))) := by
    simp [emptyCatchText]
  rw [htext]
  exact hs

end CheckAntiPatterns

namespace CheckAntiPatterns

open regexp

/-- The patterns on sample lines: what matches and what does not. -/
theorem patterns_on_samples :
    Match asAnyRe "const x = value as any;".data = true ∧
    Match asAnyRe "const x = value as  \t any".data = true ∧
    Match asAnyRe "const x = has any;".data = false ∧
    Match asAnyRe "const x = y as anything;".data = false ∧
    Match asAnyRe "const x = y as unknown;".data = false ∧
    Match tsIgnoreRe "// @ts-ignore".data = true ∧
    Match tsIgnoreRe "// @ts-expect-error next".data = true ∧
    Match tsIgnoreRe "// @ts-nocheck".data = false ∧
    Match consoleLogRe "console.log(1)".data = true ∧
    Match consoleLogRe "  x.console.log (1)".data = true ∧
    Match consoleLogRe "myconsole.log(1)".data = false ∧
    Match consoleLogRe "console.logger(1)".data = false ∧
    Match consoleLogRe "console.error(1)".data = false ∧
    Match nativeDialogRe "window.alert(msg)".data = true ∧
    Match nativeDialogRe "if (window.confirm(msg))".data = true ∧
    Match nativeDialogRe "window.prompt(msg)".data = false ∧
    Match nativeDialogRe "window.alerts".data = false ∧
    Match emptyCatchRe "catch (e) \x7b\x7d".data = true ∧
    Match emptyCatchRe "catch(e)\x7b \n \x7d".data = true ∧
    Match emptyCatchRe "catch (e) \x7b log(e) \x7d".data = false ∧
    Match emptyCatchRe "catch (e) \x7b".data = false := by
  decide!

/-- C6, as the code has it: for every input text that contains the word `catch`,
optional whitespace, a parenthesised binding without a closing parenthesis inside
it, optional whitespace, and a pair of braces with only whitespace (`\s` of Go:
tab, newline, form feed, carriage return, space) between them, also when the
braces are on different lines, the whole-file pattern matches and `checkFile`
reports exactly one `Empty catch block` violation for the file, however many such
blocks the text has: one is added to the count of the line-based patterns, and
one line naming the pattern and the file, without line number and text, is
printed after their output. -/
theorem empty_catch_reported_once (readFile : String → Option String) (file : String)
    (pre ws1 param ws2 ws3 post : List Char)
    (h1 : ∀ c ∈ ws1, isSpace c = true) (hp : ∀ c ∈ param, c ≠ ')')
    (h2 : ∀ c ∈ ws2, isSpace c = true) (h3 : ∀ c ∈ ws3, isSpace c = true)
    (hread : readFile file = some ⟨pre ++ emptyCatchText ws1 param ws2 ws3 ++ post⟩) :
    Match emptyCatchRe (pre ++ emptyCatchText ws1 param ws2 ws3 ++ post) = true ∧
    ∃ (n : Nat) (lineOut : List Report),
      (n, lineOut) =
        scanPatterns file (pre ++ emptyCatchText ws1 param ws2 ws3 ++ post) (patterns.take 4) ∧
      checkFile readFile file patterns =
        some (n + 1, lineOut ++ [Report.blocked "Empty catch block" file]) ∧
      Report.blocked "Empty catch block" file ∉ lineOut ∧
      (lineOut ++ [Report.blocked "Empty catch block" file]).count
        (Report.blocked "Empty catch block" file) = 1 := by
  have hm := emptyCatchRe_matches pre ws1 param ws2 ws3 post h1 hp h2 h3
  have hnot : Report.blocked "Empty catch block" file ∉
      (scanPatterns file (pre ++ emptyCatchText ws1 param ws2 ws3 ++ post)
        (patterns.take 4)).2 := by
    intro hmem
    rcases mem_scanPatterns file _ _ _ hmem with ⟨p, hpm, hb⟩ | ⟨n, t, hl⟩
    · have hname : p.name = "Empty catch block" := by
        injection hb with hn _
        exact hn.symm
      simp only [patterns, List.take, List.mem_cons, List.mem_singleton, List.not_mem_nil,
        or_false] at hpm
      rcases hpm with h | h | h | h <;> rw [h] at hname <;> exact absurd hname (by decide)
    · exact absurd hl (by simp)
  refine ⟨hm,
    (scanPatterns file (pre ++ emptyCatchText ws1 param ws2 ws3 ++ post) (patterns.take 4)).1,
    (scanPatterns file (pre ++ emptyCatchText ws1 param ws2 ws3 ++ post) (patterns.take 4)).2,
    rfl, ?_, hnot, ?_⟩
  · rw [checkFile_patterns, hread]
    simp only [hm, if_true]
  · rw [List.count_append, List.count_eq_zero_of_not_mem hnot]
    simp

/-- C6 as stated fails: a catch block without a parenthesised binding, `catch` followed
by empty braces, has only whitespace between its braces and is not reported at
all, also when its braces are on different lines; and a text with two empty catch
blocks gets one violation, not one for each block. -/
theorem empty_catch_without_binding_not_reported :
    checkFile (constFiles "try \x7b f() \x7d catch \x7b\x7d\n") "apps/a.ts" patterns =
      some (0, []) ∧
    checkFile (constFiles "try \x7b f() \x7d catch \x7b\n\x7d\n") "apps/a.ts" patterns =
      some (0, []) ∧
    checkFile
      (constFiles ("try \x7b f() \x7d catch (e) \x7b\x7d\n" ++
        "try \x7b g() \x7d catch (e) \x7b\n\x7d\n"))
      "apps/a.ts" patterns =
      some (1, [Report.blocked "Empty catch block" "apps/a.ts"]) := by
  decide!

/-- C6 at a concrete input: a file with `catch (e)` and braces on two lines gives
exactly one report, the empty-catch one, which has no line number. -/
theorem empty_catch_reported_once_witness :
    checkFile (constFiles "try \x7b f() \x7d catch (e) \x7b\n\x7d\n") "apps/a.ts" patterns =
      some (1, [Report.blocked "Empty catch block" "apps/a.ts"]) ∧
    Match emptyCatchRe ("try \x7b f() \x7d ".data ++
      emptyCatchText " ".data "e".data " ".data "\n".data ++ "\n".data) = true :=
  ⟨by decide!,
    (empty_catch_reported_once (constFiles "try \x7b f() \x7d catch (e) \x7b\n\x7d\n")
      "apps/a.ts" "try \x7b f() \x7d ".data " ".data "e".data " ".data "\n".data "\n".data
      (by decide!) (by decide!) (by decide!) (by decide!) (by decide!)).1⟩

end CheckAntiPatterns

namespace regexp

theorem prevAfter_replicate (n : Nat) :
    ∀ p : Option Char, prevAfter p (List.replicate (n + 1) 'x') = some 'x' := by
  induction n with
  | zero =>
    intro p
    rfl
  | succ k ih =>
    intro p
    rw [List.replicate_succ, prevAfter]
    exact ih (some 'x')

/-- The search passes over a run of a character at which no match can start. -/
theorem searchFrom_replicate (r : Regex)
    (hx : ∀ (p : Option Char) (s : List Char), ends r (p, 'x' :: s) = []) (rest : List Char) :
    ∀ (n : Nat) (p : Option Char),
      searchFrom r p (List.replicate (n + 1) 'x' ++ rest) = searchFrom r (some 'x') rest := by
  intro n
  induction n with
  | zero =>
    intro p
    show searchFrom r p ('x' :: rest) = _
    rw [searchFrom, hx]
    rfl
  | succ k ih =>
    intro p
    show searchFrom r p ('x' :: (List.replicate (k + 1) 'x' ++ rest)) = _
    rw [searchFrom, hx, ih]
    rfl

end regexp

namespace CheckAntiPatterns

open regexp

/-- Scenario A: `const x = value as any;` on line 10 of a file gives one violation,
of pattern `'as any'`, at line 10 with the text of the line. -/
theorem checkFile_as_any_line_ten :
    checkFile (constFiles tenLines) "apps/a.ts" patterns =
      some (1, [Report.line 10 "  const x = value as any;",
        Report.blocked "'as any'" "apps/a.ts"]) := by
  decide!

/-- A first line of `MaxScanTokenSize` bytes or more hides the rest of the file from
the line-based patterns: `checkFile` counts and prints nothing, although the second
physical line is a `console.log` call. -/
theorem checkFile_longLineText (n : Nat) (h : bufio.MaxScanTokenSize ≤ n) (file : String)
    (hskip : shouldSkip file = false) :
    bufio.splitLines (longLineText n) = [List.replicate n 'x', "console.log(1)".data] ∧
    bufio.scanTokens (longLineText n) = [] ∧
    checkFile (constFiles ⟨longLineText n⟩) file patterns = some (0, []) ∧
    main (constFiles ⟨longLineText n⟩) [file] = some (0, []) := by
  have hsplit : bufio.splitLines "console.log(1)\n".data = ["console.log(1)".data] := by
    decide!
  have htok : bufio.scanTokens (longLineText n) = [] :=
    bufio.scanTokens_long_first_line n _ h
  have hpos : 0 < n := Nat.lt_of_lt_of_le (by decide) h
  obtain ⟨k, hk⟩ : ∃ k, n = k + 1 := ⟨n - 1, by omega⟩
  have htail : searchFrom emptyCatchRe (some 'x') ('\n' :: "console.log(1)\n".data) = false := by
    decide!
  have hcatch : Match emptyCatchRe (longLineText n) = false := by
    unfold Match longLineText
    rw [hk, searchFrom_replicate emptyCatchRe (fun p s => by simp [emptyCatchRe, lit, ends])]
    exact htail
  have hcheck : checkFile (constFiles ⟨longLineText n⟩) file patterns = some (0, []) := by
    rw [checkFile_patterns]
    simp only [constFiles, hcatch, patterns, List.take, scanPatterns, htok, scanPattern]
    rfl
  refine ⟨?_, htok, hcheck, ?_⟩
  · unfold longLineText
    rw [bufio.splitLines_replicate, hsplit]
  · simp [main, scanFiles, hskip, hcheck]

/-- C5 fails on the code for a file with a line of 64 KiB or more. The second
physical line of the file is a `console.log` call, which the pattern matches, but
the scanner delivers no token at all (the first line, of 100000 characters, does
not fit its buffer, and the error of `Scan` is not looked at), so that no
line-based violation is counted or printed and the scanner exits 0. -/
theorem checkFile_stops_at_long_line :
    Match consoleLogRe "console.log(1)".data = true ∧
    (bufio.splitLines (longLineText 100000) =
        [List.replicate 100000 'x', "console.log(1)".data] ∧
      bufio.scanTokens (longLineText 100000) = [] ∧
      checkFile (constFiles ⟨longLineText 100000⟩) "apps/a.ts" patterns = some (0, []) ∧
      main (constFiles ⟨longLineText 100000⟩) ["apps/a.ts"] = some (0, [])) :=
  ⟨by decide!,
    checkFile_longLineText 100000 (Nat.le_of_ble_eq_true rfl) "apps/a.ts" (by decide!)⟩

end CheckAntiPatterns

namespace CheckAntiPatterns

open regexp

/-- When every physical line fits the scanner buffer, the tokens are the physical
lines, and a line-based pattern reports exactly the lines it matches, each once,
with its 1-based number and its text. -/
theorem scanPattern_of_short_lines (p : antiPattern) (file : String) (content : List Char)
    (h : ∀ l ∈ bufio.splitLines content, bufio.byteLen l < bufio.MaxScanTokenSize) :
    bufio.scanTokens content = (bufio.splitLines content).map bufio.dropCR ∧
    scanPattern p file 0 (bufio.scanTokens content) =
      ((((bufio.splitLines content).map bufio.dropCR).filter
          (fun l => Match p.pattern l)).length,
        ((((bufio.splitLines content).map bufio.dropCR).enumFrom 1).filter
          (fun il => Match p.pattern il.2)).flatMap
          (fun il => [Report.line il.1 ⟨il.2⟩, Report.blocked p.name file])) := by
  have ht : bufio.scanTokens content = (bufio.splitLines content).map bufio.dropCR := by
    unfold bufio.scanTokens
    congr 1
    rw [List.takeWhile_eq_self_iff]
    intro l hl
    simpa using h l hl
  refine ⟨ht, ?_⟩
  rw [ht, scanPattern_eq]

end CheckAntiPatterns

namespace Verify

open filepath

/-- C11, as the code has it: a step is recorded as Skipped in two cases only, the
build step when the skip-build flag is given and the anti-pattern scan step when
the walk finds no candidate file. Whether a step is Skipped does not depend on the
outcome of any action, so it is never a consequence of a failure; in a run
without the flag over a tree with at least one candidate no step is Skipped. -/
theorem skipped_only_by_flag_or_no_candidates (w : World) (skipBuild : Bool) :
    (∀ s ∈ (runAllSteps w skipBuild).1, s.result = .resultSkip →
      (s.name = "anti-patterns" ∧ collected w.root = []) ∨
      (s.name = "7/7" ∧ skipBuild = true)) ∧
    ((runAntiPatternStep w).1.result = .resultSkip ↔ collected w.root = []) ∧
    ((runAllSteps w skipBuild).1.map (fun s => decide (s.result = .resultSkip)) =
      [false, false, false, decide (collected w.root = []), false, false, skipBuild]) ∧
    (skipBuild = false → collected w.root ≠ [] →
      ∀ s ∈ (runAllSteps w skipBuild).1, s.result ≠ .resultSkip) := by
  have heq := runAntiPatternStep_eq w
  have hn := runAntiPatternStep_name w
  have hscan : (runAntiPatternStep w).1.result = .resultSkip ↔ collected w.root = [] := by
    rw [heq]
    by_cases h0 : collected w.root = []
    · simp [h0]
    · by_cases hf : w.fails (scannerArgv ((collected w.root).take 500)) = true
      · simp [h0, hf, outcome]
      · simp [h0, hf, outcome]
  have hout : ∀ b : Bool, outcome b ≠ .resultSkip := by
    intro b
    cases b <;> simp [outcome]
  have hmem : ∀ s ∈ (runAllSteps w skipBuild).1, s.result = .resultSkip →
      (s.name = "anti-patterns" ∧ collected w.root = []) ∨
      (s.name = "7/7" ∧ skipBuild = true) := by
    intro s hs hskip
    simp only [runAllSteps, runStep_fst, runCommand, List.mem_cons, List.mem_singleton,
      List.not_mem_nil, or_false] at hs
    rcases hs with h | h | h | h | h | h | h
    · rw [h] at hskip
      exact absurd hskip (hout _)
    · rw [h] at hskip
      exact absurd hskip (hout _)
    · rw [h] at hskip
      exact absurd hskip (hout _)
    · rw [h] at hskip ⊢
      exact Or.inl ⟨hn.1, hscan.mp hskip⟩
    · rw [h] at hskip
      exact absurd hskip (hout _)
    · rw [h] at hskip
      exact absurd hskip (hout _)
    · cases skipBuild with
      | true =>
        rw [h]
        exact Or.inr ⟨rfl, rfl⟩
      | false =>
        simp only [Bool.false_eq_true, if_false, runStep_fst] at h
        rw [h] at hskip
        exact absurd hskip (hout _)
  refine ⟨hmem, hscan, ?_, ?_⟩
  · have hd : decide ((runAntiPatternStep w).1.result = .resultSkip) =
        decide (collected w.root = []) := by
      by_cases h0 : collected w.root = []
      · simp [h0, hscan.mpr h0]
      · have : ¬ (runAntiPatternStep w).1.result = .resultSkip := fun h => h0 (hscan.mp h)
        simp [h0, this]
    cases skipBuild <;>
      simp [runAllSteps, runStep_fst, runCommand, hout, hd]
  · intro hflag hne s hs hskip
    rcases hmem s hs hskip with ⟨_, h0⟩ | ⟨_, hb⟩
    · exact hne h0
    · rw [hflag] at hb
      exact absurd hb (by decide)

/-- C11 at a concrete run: without the flag, over a tree with a source file, no
step is Skipped although the lint step fails. -/
theorem skipped_only_by_flag_or_no_candidates_witness :
    (∀ s ∈ (runAllSteps lintFailsWorld false).1, s.result ≠ .resultSkip) ∧
    (runAllSteps lintFailsWorld true).1.map step.result =
      [.resultPass, .resultFail, .resultPass, .resultPass, .resultPass, .resultPass,
        .resultSkip] :=
  ⟨(skipped_only_by_flag_or_no_candidates lintFailsWorld false).2.2.2 rfl (by decide!),
    by decide!⟩

/-- C11 as stated fails: in a run without the skip-build flag over a tree without
any `.ts` or `.tsx` file under `apps/` or `packages/`, the anti-pattern scan step
is recorded as Skipped, and the scanner is not run. -/
theorem scan_step_skipped_without_flag :
    collected docsOnlyWorld.root = [] ∧
    (runAllSteps docsOnlyWorld false).1.map step.result =
      [.resultPass, .resultPass, .resultPass, .resultSkip, .resultPass, .resultPass,
        .resultPass] ∧
    (⟨"anti-patterns", "Anti-pattern Scan", .resultSkip⟩ : step) ∈
      (runAllSteps docsOnlyWorld false).1 ∧
    (main docsOnlyWorld []).1 = 0 := by
  decide!

end Verify
